import Mathlib

/-!
Shallow embedding of the 5D-chess position core (Board2D / Timeline / Position)
from the repository sources `position.h`, `position.cpp` and `types.h`.

Pieces and squares are modelled as natural numbers with the same encodings as
the C++ enums (`NO_PIECE = 0`, `W_PAWN = 1` … `W_KING = 6`, `B_PAWN = 9` …
`B_KING = 14`, `SQ_NONE = 64`).  The C++ arrays `board[]`, `pieceCount[]`,
`pieceList[][]` and `index[]` are modelled as total functions; `pieceCount`
and `index` hold C++ `int` values and are therefore `Int`-valued.  Fallible
operations (unchecked vector indexing, assertion failure) are modelled with
`Option`: `none` stands for an aborted or undefined execution.
-/

/-- Colors, as in `types.h` (`WHITE = 0`, `BLACK = 1`). -/
inductive Color where
  | white
  | black
deriving DecidableEq

/-- Numeric value of a color, matching the C++ enum value (used in casts such
as `branchTime + (int)sideToMove` and in `plyToBoardIdx`). -/
def Color.val : Color → Int
  | .white => 0
  | .black => 1

/-- Translation of `other_color` from `types.h` (`Color(1 - c)`). -/
def other_color : Color → Color
  | .white => .black
  | .black => .white

/-- The twelve real piece codes of the `Piece` enum; excludes `NO_PIECE` (0)
and the `ALL_PIECES` aggregate slots (0 and 8). -/
def validPiece (p : Nat) : Prop :=
  (1 ≤ p ∧ p ≤ 6) ∨ (9 ≤ p ∧ p ≤ 14)

instance (p : Nat) : Decidable (validPiece p) := by
  unfold validPiece; infer_instance

/-- Translation of `make_piece(color_of(pc), ALL_PIECES)` from `types.h`:
`(pc >> 3) << 3`, i.e. the aggregate counter slot for `pc`'s color. -/
def allPieces (pc : Nat) : Nat := 8 * (pc / 8)

/-- Pointwise update of a two-argument function, used to model writes to the
two-dimensional C++ array `pieceList[PIECE_NB][16]`. -/
def upd2 {α : Type} (f : Nat → Int → α) (p : Nat) (i : Int) (v : α) : Nat → Int → α :=
  fun p' i' => if p' = p ∧ i' = i then v else f p' i'

/-- The `Board2D` class of `position.h`: square contents, piece-location
bookkeeping (`pieceCount`, `pieceList`, `index`) and the side to move. -/
structure Board2D where
  boardWidth : Nat
  board : Nat → Nat
  pieceCount : Nat → Int
  pieceList : Nat → Int → Nat
  index : Nat → Int
  sideToMove : Color

/-- Translation of `Board2D::put_piece`:
`board[s] = pc; index[s] = pieceCount[pc]++; pieceList[pc][index[s]] = s;
pieceCount[make_piece(color_of(pc), ALL_PIECES)]++;`.  No precondition is
checked, exactly as in the source. -/
def Board2D.put_piece (b : Board2D) (pc s : Nat) : Board2D :=
  let cnt1 := Function.update b.pieceCount pc (b.pieceCount pc + 1)
  { b with
    board := Function.update b.board s pc
    index := Function.update b.index s (b.pieceCount pc)
    pieceList := upd2 b.pieceList pc (b.pieceCount pc) s
    pieceCount := Function.update cnt1 (allPieces pc) (cnt1 (allPieces pc) + 1) }

/-- Translation of `Board2D::remove_piece`: swap-with-last removal.
`pc = board[s]; board[s] = NO_PIECE;
lastSquare = pieceList[pc][--pieceCount[pc]];
index[lastSquare] = index[s];
pieceList[pc][index[lastSquare]] = lastSquare;
pieceList[pc][pieceCount[pc]] = SQ_NONE;
pieceCount[make_piece(color_of(pc), ALL_PIECES)]--;`.
No precondition is checked, exactly as in the source. -/
def Board2D.remove_piece (b : Board2D) (s : Nat) : Board2D :=
  let pc := b.board s
  let cnt1 := Function.update b.pieceCount pc (b.pieceCount pc - 1)
  let lastSquare := b.pieceList pc (cnt1 pc)
  let index1 := Function.update b.index lastSquare (b.index s)
  let pl1 := upd2 b.pieceList pc (index1 lastSquare) lastSquare
  let pl2 := upd2 pl1 pc (cnt1 pc) 64
  { b with
    board := Function.update b.board s 0
    index := index1
    pieceList := pl2
    pieceCount := Function.update cnt1 (allPieces pc) (cnt1 (allPieces pc) - 1) }

/-- Translation of `Board2D::passTurn` (`sideToMove = other_color(sideToMove)`). -/
def Board2D.passTurn (b : Board2D) : Board2D :=
  { b with sideToMove := other_color b.sideToMove }

/-- The state of a `Board2D` directly after the clearing prologue of
`Board2D::set`: `memset(this, 0, ...)` followed by filling `pieceList`
with `SQ_NONE`. -/
def Board2D.cleared : Board2D :=
  { boardWidth := 0
    board := fun _ => 0
    pieceCount := fun _ => 0
    pieceList := fun _ _ => 64
    index := fun _ => 0
    sideToMove := Color.white }

/-- The `Timeline` class of `position.h`. -/
structure Timeline where
  startTime : Int
  startColor : Color
  active : Bool
  boards : List Board2D
  printIndented : Bool

/-- The constructor `Timeline(Time setStartTime, Color setStartColor)`:
no boards, inactive, `printIndented = true` (field initializers). -/
def Timeline.startAt (t : Int) (c : Color) : Timeline :=
  { startTime := t, startColor := c, active := false, boards := [], printIndented := true }

/-- Translation of `Timeline::activate` (`active = true`). -/
def Timeline.activate (tl : Timeline) : Timeline :=
  { tl with active := true }

/-- Translation of `Timeline::append_board` (`boards.push_back(...)`). -/
def Timeline.append_board (tl : Timeline) (b : Board2D) : Timeline :=
  { tl with boards := tl.boards ++ [b] }

/-- Translation of `Timeline::plyToBoardIdx`:
`2 * (time - startTime) + (c - startColor)`. -/
def Timeline.plyToBoardIdx (tl : Timeline) (time : Int) (c : Color) : Int :=
  2 * (time - tl.startTime) + (c.val - tl.startColor.val)

/-- Translation of `Timeline::has_board_on_turn`, faithfully including its
actual return expression `idx < 0`. -/
def Timeline.has_board_on_turn (tl : Timeline) (time : Int) (c : Color) : Bool :=
  decide (tl.plyToBoardIdx time c < 0)

/-- Translation of `Timeline::board_on_turn` (`*boards[plyToBoardIdx(...)]`).
The C++ subscript is unchecked; an out-of-range index has no defined result,
modelled as `none`. -/
def Timeline.board_on_turn (tl : Timeline) (time : Int) (c : Color) : Option Board2D :=
  let idx := tl.plyToBoardIdx time c
  if 0 ≤ idx then tl.boards.get? idx.toNat else none

/-- Translation of `Timeline::first_board` (`*boards.front()`). -/
def Timeline.first_board (tl : Timeline) : Option Board2D :=
  tl.boards.head?

/-- The `Position` class of `position.h`. -/
structure Position where
  negativeLines : List Timeline
  positiveLines : List Timeline
  activePositiveLines : Int
  activeNegativeLines : Int
  timeOfPresent : Int
  sideToMove : Color

/-- Translation of `Position::negative_timeline_count` (`negativeLines.size()`). -/
def Position.negative_timeline_count (p : Position) : Int :=
  (p.negativeLines.length : Int)

/-- Translation of `Position::positive_timeline_count`
(`positiveLines.size() - 1`; slot 0 is the central timeline). -/
def Position.positive_timeline_count (p : Position) : Int :=
  (p.positiveLines.length : Int) - 1

/-- Translation of `Position::timeline`: `positiveLines[l]` when `l >= 0`,
`negativeLines[-l - 1]` otherwise.  The C++ subscript is unchecked
("Doesn't check if the timeline exists, which can lead to crashes!");
out-of-range access is modelled as `none`. -/
def Position.timeline (p : Position) (l : Int) : Option Timeline :=
  if 0 ≤ l then p.positiveLines.get? l.toNat
  else p.negativeLines.get? (-l - 1).toNat

/-- The timeline built for one starting board inside `Position::set`:
`Timeline tl(1, board->side_to_move()); tl.append_board(*board); tl.activate();`. -/
def mkInitTimeline (b : Board2D) : Timeline :=
  ((Timeline.startAt 1 b.sideToMove).append_board b).activate

/-- Translation of `Position::set`.  FEN decoding is performed by the external
board codec (`Board2D::set`), out of scope per the specification's interface
boundary, so this function receives the already-decoded boards.  The negative
list is supplied top-down (highest-magnitude timeline first) and is reversed by
the `for (int i = negativeFENs.size() - 1; i >= 0; --i)` loop; the C++ reads
`positiveLines[0]` unconditionally at the end, which is undefined for an empty
positive list, modelled as `none`. -/
def Position.set (negativeBoards positiveBoards : List Board2D) : Option Position :=
  match positiveBoards with
  | [] => none
  | b0 :: _ =>
    some { negativeLines := negativeBoards.reverse.map mkInitTimeline
           positiveLines := positiveBoards.map mkInitTimeline
           activePositiveLines := (positiveBoards.length : Int) - 1
           activeNegativeLines := (negativeBoards.length : Int)
           timeOfPresent := 1
           sideToMove := b0.sideToMove }

/-- Translation of `Position::new_timeline`.  Returns the updated position and
the new board.  The two unchecked vector subscripts (`timeline(branchLine)`'s
lookup and `boards[plyToBoardIdx(...)]`) and the two `assert(!....is_active())`
statements are the fallible steps; all are modelled as `none` (no defined
result / aborted execution).  The Black-mover secondary branch faithfully
mirrors the source, including the absence of an `activePositiveLines`
increment there. -/
def Position.new_timeline (p : Position) (branchLine branchTime : Int) :
    Option (Position × Board2D) :=
  match p.timeline branchLine with
  | none => none
  | some targetLine =>
    match targetLine.board_on_turn branchTime p.sideToMove with
    | none => none
    | some targetBoard =>
      let newBoard := targetBoard.passTurn
      let ntl := (Timeline.startAt (branchTime + p.sideToMove.val) newBoard.sideToMove).append_board newBoard
      let pos_cnt := p.positive_timeline_count
      let neg_cnt := p.negative_timeline_count
      if p.sideToMove = Color.white then
        if pos_cnt = neg_cnt ∨ pos_cnt = neg_cnt - 1 then
          some ({ p with
                  positiveLines := p.positiveLines ++ [ntl.activate]
                  activePositiveLines := p.activePositiveLines + 1
                  timeOfPresent := min p.timeOfPresent ntl.startTime }, newBoard)
        else if pos_cnt < neg_cnt - 1 then
          match p.negativeLines.get? (pos_cnt + 1).toNat with
          | none => none
          | some balTl =>
            if balTl.active then none
            else
              some ({ p with
                      positiveLines := p.positiveLines ++ [ntl.activate]
                      negativeLines := p.negativeLines.set (pos_cnt + 1).toNat balTl.activate
                      activePositiveLines := p.activePositiveLines + 1
                      activeNegativeLines := p.activeNegativeLines + 1
                      timeOfPresent := min p.timeOfPresent (min ntl.startTime balTl.startTime) },
                    newBoard)
        else
          some ({ p with positiveLines := p.positiveLines ++ [ntl] }, newBoard)
      else
        if neg_cnt = pos_cnt ∨ neg_cnt = pos_cnt - 1 then
          some ({ p with
                  negativeLines := p.negativeLines ++ [ntl.activate]
                  activeNegativeLines := p.activeNegativeLines + 1
                  timeOfPresent := min p.timeOfPresent ntl.startTime }, newBoard)
        else if neg_cnt < pos_cnt - 1 then
          match p.positiveLines.get? (neg_cnt + 2).toNat with
          | none => none
          | some balTl =>
            if balTl.active then none
            else
              some ({ p with
                      negativeLines := p.negativeLines ++ [ntl.activate]
                      positiveLines := p.positiveLines.set (neg_cnt + 2).toNat balTl.activate
                      activeNegativeLines := p.activeNegativeLines + 1
                      timeOfPresent := min p.timeOfPresent (min ntl.startTime balTl.startTime) },
                    newBoard)
        else
          some ({ p with negativeLines := p.negativeLines ++ [ntl] }, newBoard)

/-- Last timeline of the mover's side collection (the slot `new_timeline`
appends to). -/
def Position.moverSideLast (p : Position) (c : Color) : Option Timeline :=
  match c with
  | .white => p.positiveLines.getLast?
  | .black => p.negativeLines.getLast?

/-- Runs a sequence of branch calls.  The repository contains no operation
that mutates `Position::sideToMove` after `set` (applying the actual moves is
outside the modelled core), so the mover of each `new_timeline` call is
supplied explicitly with the call, as the spec's branch scenarios do. -/
def runBranches (p : Position) : List (Color × Int × Int) → Option Position
  | [] => some p
  | (c, l, t) :: rest =>
    match Position.new_timeline { p with sideToMove := c } l t with
    | none => none
    | some (p', _) => runBranches p' rest

/-- A concrete decoded starting board (contents are irrelevant to the
timeline bookkeeping; only `sideToMove` is ever read by `Position`). -/
def demoBoard : Board2D :=
  { boardWidth := 4
    board := fun _ => 0
    pieceCount := fun _ => 0
    pieceList := fun _ _ => 64
    index := fun _ => 0
    sideToMove := Color.white }

/-- Branch-call sequence driving the Black-mover secondary-activation branch
three times: White branches from the central timeline at time 1, Black
branches from positive timeline 1 at time 1. -/
def movesC1 : List (Color × Int × Int) :=
  [(Color.white, 0, 1), (Color.white, 0, 1), (Color.black, 1, 1),
   (Color.white, 0, 1), (Color.black, 1, 1),
   (Color.white, 0, 1), (Color.black, 1, 1)]

/-- C1: the balance invariant `|activePositiveCount − activeNegativeCount| ≤ 1`
fails on the code.  Starting from a balanced position (one central timeline
only, both counters 0), the seven branch calls of `movesC1` all succeed and
leave `activePositiveLines = 1` and `activeNegativeLines = 3`; the Black-mover
secondary-activation branch of `new_timeline` activates the balancing positive
timeline but never increments `activePositiveLines`, so the difference grows
to 2. -/
theorem balanceInvariantViolation :
    ((Position.set [] [demoBoard]).bind (fun p => runBranches p movesC1)).map
      (fun q => (q.activePositiveLines, q.activeNegativeLines)) = some (1, 3)
    ∧ ¬ (((1 : Int) - 3).natAbs ≤ 1) := by
  decide

/-- C2: in the secondary-activation case with Black as mover, the code
activates the balancing positive timeline but does not increment the
opposing-side (positive) active counter.  After two White branches the
position has `ownCount = 0 < oppCount − 1 = 1` for Black; the Black branch
call activates `positiveLines[2]` (storage index `negCnt + 2`), yet
`activePositiveLines` remains 1. -/
theorem secondaryActivationMissingIncrement :
    ((Position.set [] [demoBoard]).bind (fun p => runBranches p (movesC1.take 2))).map
      (fun q => (q.positive_timeline_count, q.negative_timeline_count,
                 (q.positiveLines.get? 2).map Timeline.active)) = some (2, 0, some false)
    ∧ (0 : Int) < 2 - 1
    ∧ ((Position.set [] [demoBoard]).bind (fun p => runBranches p (movesC1.take 3))).map
        (fun q => (q.activePositiveLines, q.activeNegativeLines,
                   (q.positiveLines.get? 2).map Timeline.active)) = some (1, 1, some true) := by
  refine ⟨by decide, by decide, by decide⟩

/-- C4 (counterexample): the claim's guard `ownCount > oppCount − 1` also
holds when `ownCount = oppCount` (here `0 > 0 − 1`), but on the very first
White branch from the balanced start the code activates the new timeline and
increments `activePositiveLines`, contradicting the claimed
"appended inactive, counters unchanged" behavior. -/
theorem surplusGuardCounterexample :
    (Position.set [] [demoBoard]).map
      (fun q => (q.positive_timeline_count, q.negative_timeline_count)) = some (0, 0)
    ∧ (0 : Int) > 0 - 1
    ∧ ((Position.set [] [demoBoard]).bind (fun p => runBranches p (movesC1.take 1))).map
        (fun q => (q.activePositiveLines, (q.positiveLines.get? 1).map Timeline.active))
        = some (1, some true) := by
  refine ⟨by decide, by decide, by decide⟩

/-- A concrete one-board timeline starting at `(time 1, White)`, as built by
initialization. -/
def demoTimeline : Timeline := mkInitTimeline demoBoard

/-- C5: `has_board_on_turn` is inverted.  On a timeline with `startTime = 1`,
`startColor = WHITE` holding one board, the query at `(1, WHITE)` computes ply
index 0 — a board exists there (`board_on_turn` succeeds) — yet
`has_board_on_turn` returns `false`; at `(0, WHITE)` the index is negative and
no board exists, yet it returns `true`.  The source returns `idx < 0`, the
negation of "a board exists at this index", and never checks the upper
bound. -/
theorem hasBoardOnTurnInverted :
    demoTimeline.plyToBoardIdx 1 Color.white = 0
    ∧ (demoTimeline.board_on_turn 1 Color.white).isSome = true
    ∧ demoTimeline.has_board_on_turn 1 Color.white = false
    ∧ demoTimeline.plyToBoardIdx 0 Color.white = -2
    ∧ demoTimeline.board_on_turn 0 Color.white = none
    ∧ demoTimeline.has_board_on_turn 0 Color.white = true := by
  refine ⟨by decide, by decide, by decide, by decide, rfl, by decide⟩

theorem upd2_hit {α : Type} {f : Nat → Int → α} {p : Nat} {i : Int} {v : α} :
    upd2 f p i v p i = v := by
  unfold upd2
  rw [if_pos ⟨rfl, rfl⟩]

theorem upd2_miss {α : Type} {f : Nat → Int → α} {p : Nat} {i : Int} {v : α}
    {p' : Nat} {i' : Int} (h : p' ≠ p ∨ i' ≠ i) :
    upd2 f p i v p' i' = f p' i' := by
  unfold upd2
  rw [if_neg]
  rintro ⟨h1, h2⟩
  rcases h with h | h
  · exact h h1
  · exact h h2

theorem validPiece_ne_zero {q : Nat} (h : validPiece q) : q ≠ 0 := by
  unfold validPiece at h
  omega

theorem validPiece_ne_allPieces {q : Nat} (hq : validPiece q) (pc : Nat) :
    q ≠ allPieces pc := by
  unfold validPiece at hq
  unfold allPieces
  omega

theorem put_board (b : Board2D) (pc s : Nat) :
    (b.put_piece pc s).board = Function.update b.board s pc := rfl

theorem put_index (b : Board2D) (pc s : Nat) :
    (b.put_piece pc s).index = Function.update b.index s (b.pieceCount pc) := rfl

theorem put_pieceList (b : Board2D) (pc s : Nat) :
    (b.put_piece pc s).pieceList = upd2 b.pieceList pc (b.pieceCount pc) s := rfl

/-- The two `pieceCount` writes of `put_piece` hit the slot `pc` and the
aggregate slot `allPieces pc`; a real piece slot `q` only sees the first. -/
theorem put_pieceCount_valid (b : Board2D) (pc s q : Nat) (hq : validPiece q) :
    (b.put_piece pc s).pieceCount q =
      if q = pc then b.pieceCount pc + 1 else b.pieceCount q := by
  unfold Board2D.put_piece
  dsimp only
  rw [Function.update_apply, if_neg (validPiece_ne_allPieces hq pc), Function.update_apply]

/-- Well-formedness of the piece bookkeeping of a `Board2D`: for every real
piece, the first `pieceCount` entries of its `pieceList` row are exactly the
squares carrying that piece, with `index` as the inverse mapping. -/
def Board2D.Inv (b : Board2D) : Prop :=
  ∀ p : Nat, validPiece p →
    0 ≤ b.pieceCount p ∧
    (∀ s : Nat, s < 64 → b.board s = p →
      0 ≤ b.index s ∧ b.index s < b.pieceCount p ∧ b.pieceList p (b.index s) = s) ∧
    (∀ i : Int, 0 ≤ i → i < b.pieceCount p →
      b.pieceList p i < 64 ∧ b.board (b.pieceList p i) = p ∧ b.index (b.pieceList p i) = i)

theorem cleared_Inv : Board2D.cleared.Inv := by
  intro p hp
  refine ⟨le_refl 0, ?_, ?_⟩
  · intro s _ hbs
    have hb0 : Board2D.cleared.board s = 0 := rfl
    rw [hb0] at hbs
    exact absurd hbs.symm (validPiece_ne_zero hp)
  · intro i hi0 hilt
    have hc : Board2D.cleared.pieceCount p = 0 := rfl
    rw [hc] at hilt
    omega

/-- `put_piece` onto an empty square with a real piece preserves the
bookkeeping invariant. -/
theorem put_piece_inv (b : Board2D) (pc s : Nat)
    (hb : b.Inv) (hpc : validPiece pc) (hs : s < 64) (hempty : b.board s = 0) :
    (b.put_piece pc s).Inv := by
  have hpc0 : pc ≠ 0 := validPiece_ne_zero hpc
  intro p hp
  have hp0 : p ≠ 0 := validPiece_ne_zero hp
  obtain ⟨hc0, hA, hB⟩ := hb p hp
  obtain ⟨hcpc0, hApc, hBpc⟩ := hb pc hpc
  have hcnt := put_pieceCount_valid b pc s p hp
  by_cases hppc : p = pc
  · subst hppc
    rw [hcnt, if_pos rfl]
    refine ⟨by omega, ?_, ?_⟩
    · intro s' hs' hbs'
      rw [put_board, Function.update_apply] at hbs'
      by_cases hss : s' = s
      · subst hss
        have hidx : (b.put_piece p s').index s' = b.pieceCount p := by
          rw [put_index, Function.update_same]
        refine ⟨by rw [hidx]; exact hcpc0, by rw [hidx]; omega, ?_⟩
        rw [hidx, put_pieceList, upd2_hit]
      · rw [if_neg hss] at hbs'
        obtain ⟨h1, h2, h3⟩ := hApc s' hs' hbs'
        have hidx : (b.put_piece p s).index s' = b.index s' := by
          rw [put_index, Function.update_noteq hss]
        refine ⟨by rw [hidx]; exact h1, by rw [hidx]; omega, ?_⟩
        rw [hidx, put_pieceList,
            upd2_miss (Or.inr (by omega : b.index s' ≠ b.pieceCount p)), h3]
    · intro i hi0 hilt
      by_cases hicnt : i = b.pieceCount p
      · subst hicnt
        refine ⟨?_, ?_, ?_⟩
        · rw [put_pieceList, upd2_hit]
          exact hs
        · rw [put_pieceList, upd2_hit, put_board, Function.update_same]
        · rw [put_pieceList, upd2_hit, put_index, Function.update_same]
      · have hlt : i < b.pieceCount p := by omega
        obtain ⟨h1, h2, h3⟩ := hBpc i hi0 hlt
        have hplist : (b.put_piece p s).pieceList p i = b.pieceList p i := by
          rw [put_pieceList, upd2_miss (Or.inr hicnt)]
        have htns : b.pieceList p i ≠ s := by
          intro he
          rw [he, hempty] at h2
          exact hpc0 h2.symm
        refine ⟨by rw [hplist]; exact h1, ?_, ?_⟩
        · rw [hplist, put_board, Function.update_noteq htns, h2]
        · rw [hplist, put_index, Function.update_noteq htns, h3]
  · rw [hcnt, if_neg hppc]
    refine ⟨hc0, ?_, ?_⟩
    · intro s' hs' hbs'
      rw [put_board, Function.update_apply] at hbs'
      by_cases hss : s' = s
      · rw [if_pos hss] at hbs'
        exact absurd hbs'.symm hppc
      · rw [if_neg hss] at hbs'
        obtain ⟨h1, h2, h3⟩ := hA s' hs' hbs'
        have hidx : (b.put_piece pc s).index s' = b.index s' := by
          rw [put_index, Function.update_noteq hss]
        refine ⟨by rw [hidx]; exact h1, by rw [hidx]; exact h2, ?_⟩
        rw [hidx, put_pieceList, upd2_miss (Or.inl hppc), h3]
    · intro i hi0 hilt
      obtain ⟨h1, h2, h3⟩ := hB i hi0 hilt
      have hplist : (b.put_piece pc s).pieceList p i = b.pieceList p i := by
        rw [put_pieceList, upd2_miss (Or.inl hppc)]
      have htns : b.pieceList p i ≠ s := by
        intro he
        rw [he, hempty] at h2
        exact hp0 h2.symm
      refine ⟨by rw [hplist]; exact h1, ?_, ?_⟩
      · rw [hplist, put_board, Function.update_noteq htns, h2]
      · rw [hplist, put_index, Function.update_noteq htns, h3]

theorem remove_board (b : Board2D) (s : Nat) :
    (b.remove_piece s).board = Function.update b.board s 0 := rfl

theorem remove_index (b : Board2D) (s : Nat) :
    (b.remove_piece s).index =
      Function.update b.index
        (b.pieceList (b.board s) (b.pieceCount (b.board s) - 1)) (b.index s) := by
  unfold Board2D.remove_piece
  dsimp only
  rw [Function.update_same]

theorem remove_pieceList (b : Board2D) (s : Nat) :
    (b.remove_piece s).pieceList =
      upd2 (upd2 b.pieceList (b.board s) (b.index s)
              (b.pieceList (b.board s) (b.pieceCount (b.board s) - 1)))
        (b.board s) (b.pieceCount (b.board s) - 1) 64 := by
  unfold Board2D.remove_piece
  dsimp only
  rw [Function.update_same, Function.update_same]

/-- As for `put_piece`: a real piece slot `q` only sees the write to the slot
of the removed piece, not the aggregate write. -/
theorem remove_pieceCount_valid (b : Board2D) (s : Nat) (q : Nat) (hq : validPiece q) :
    (b.remove_piece s).pieceCount q =
      if q = b.board s then b.pieceCount (b.board s) - 1 else b.pieceCount q := by
  unfold Board2D.remove_piece
  dsimp only
  rw [Function.update_apply, if_neg (validPiece_ne_allPieces hq (b.board s)),
      Function.update_apply]

/-- `remove_piece` from a square occupied by a real piece preserves the
bookkeeping invariant. -/
theorem remove_piece_inv (b : Board2D) (s : Nat)
    (hb : b.Inv) (hs : s < 64) (hvp : validPiece (b.board s)) :
    (b.remove_piece s).Inv := by
  intro p hp
  have hp0 : p ≠ 0 := validPiece_ne_zero hp
  obtain ⟨hc0, hA, hB⟩ := hb p hp
  obtain ⟨hcpc0, hApc, hBpc⟩ := hb (b.board s) hvp
  obtain ⟨his0, hisc, hplis⟩ := hApc s hs rfl
  obtain ⟨hlast64, hblast, hilast⟩ :=
    hBpc (b.pieceCount (b.board s) - 1) (by omega) (by omega)
  have hcnt := remove_pieceCount_valid b s p hp
  by_cases hppc : p = b.board s
  · subst hppc
    rw [hcnt, if_pos rfl]
    refine ⟨by omega, ?_, ?_⟩
    · intro s' hs' hbs'
      rw [remove_board, Function.update_apply] at hbs'
      by_cases hss : s' = s
      · rw [if_pos hss] at hbs'
        exact absurd hbs'.symm (validPiece_ne_zero hvp)
      · rw [if_neg hss] at hbs'
        obtain ⟨h1, h2, h3⟩ := hApc s' hs' hbs'
        by_cases hsl : s' = b.pieceList (b.board s) (b.pieceCount (b.board s) - 1)
        · have hlastne : b.pieceList (b.board s) (b.pieceCount (b.board s) - 1) ≠ s :=
            fun he => hss (hsl.trans he)
          have hisne : b.index s ≠ b.pieceCount (b.board s) - 1 := by
            intro he
            apply hlastne
            rw [← he]
            exact hplis
          have hidx : (b.remove_piece s).index s' = b.index s := by
            rw [remove_index, hsl, Function.update_same]
          refine ⟨by rw [hidx]; exact his0, by rw [hidx]; omega, ?_⟩
          rw [hidx, remove_pieceList, upd2_miss (Or.inr hisne), upd2_hit]
          exact hsl.symm
        · have hidx : (b.remove_piece s).index s' = b.index s' := by
            rw [remove_index, Function.update_noteq hsl]
          have hine : b.index s' ≠ b.pieceCount (b.board s) - 1 := by
            intro he
            apply hsl
            rw [← h3, he]
          have hine2 : b.index s' ≠ b.index s := by
            intro he
            apply hss
            rw [← h3, he, hplis]
          refine ⟨by rw [hidx]; exact h1, by rw [hidx]; omega, ?_⟩
          rw [hidx, remove_pieceList, upd2_miss (Or.inr hine), upd2_miss (Or.inr hine2), h3]
    · intro i hi0 hilt
      by_cases hiis : i = b.index s
      · have hpl : (b.remove_piece s).pieceList (b.board s) i =
            b.pieceList (b.board s) (b.pieceCount (b.board s) - 1) := by
          rw [remove_pieceList,
              upd2_miss (Or.inr (by omega : i ≠ b.pieceCount (b.board s) - 1)), hiis,
              upd2_hit]
        have hlastne : b.pieceList (b.board s) (b.pieceCount (b.board s) - 1) ≠ s := by
          intro he
          have : b.index s = b.pieceCount (b.board s) - 1 :=
            (congrArg b.index he).symm.trans hilast
          omega
        refine ⟨by rw [hpl]; exact hlast64, ?_, ?_⟩
        · rw [hpl, remove_board, Function.update_noteq hlastne, hblast]
        · rw [hpl, remove_index, Function.update_same]
          exact hiis.symm
      · have hpl : (b.remove_piece s).pieceList (b.board s) i = b.pieceList (b.board s) i := by
          rw [remove_pieceList,
              upd2_miss (Or.inr (by omega : i ≠ b.pieceCount (b.board s) - 1)),
              upd2_miss (Or.inr hiis)]
        obtain ⟨t64, tb, ti⟩ := hBpc i hi0 (by omega)
        have htns : b.pieceList (b.board s) i ≠ s := by
          intro he
          exact hiis (ti.symm.trans (congrArg b.index he))
        have htnl : b.pieceList (b.board s) i ≠
            b.pieceList (b.board s) (b.pieceCount (b.board s) - 1) := by
          intro he
          have : i = b.pieceCount (b.board s) - 1 :=
            ti.symm.trans ((congrArg b.index he).trans hilast)
          omega
        refine ⟨by rw [hpl]; exact t64, ?_, ?_⟩
        · rw [hpl, remove_board, Function.update_noteq htns, tb]
        · rw [hpl, remove_index, Function.update_noteq htnl, ti]
  · rw [hcnt, if_neg hppc]
    refine ⟨hc0, ?_, ?_⟩
    · intro s' hs' hbs'
      rw [remove_board, Function.update_apply] at hbs'
      by_cases hss : s' = s
      · rw [if_pos hss] at hbs'
        exact absurd hbs'.symm hp0
      · rw [if_neg hss] at hbs'
        obtain ⟨h1, h2, h3⟩ := hA s' hs' hbs'
        have hsl : s' ≠ b.pieceList (b.board s) (b.pieceCount (b.board s) - 1) := by
          intro he
          rw [he] at hbs'
          exact hppc (hbs'.symm.trans hblast)
        have hidx : (b.remove_piece s).index s' = b.index s' := by
          rw [remove_index, Function.update_noteq hsl]
        refine ⟨by rw [hidx]; exact h1, by rw [hidx]; exact h2, ?_⟩
        rw [hidx, remove_pieceList, upd2_miss (Or.inl hppc), upd2_miss (Or.inl hppc), h3]
    · intro i hi0 hilt
      obtain ⟨t64, tb, ti⟩ := hB i hi0 hilt
      have hpl : (b.remove_piece s).pieceList p i = b.pieceList p i := by
        rw [remove_pieceList, upd2_miss (Or.inl hppc), upd2_miss (Or.inl hppc)]
      have htns : b.pieceList p i ≠ s := by
        intro he
        rw [he] at tb
        exact hppc tb.symm
      have htnl : b.pieceList p i ≠
          b.pieceList (b.board s) (b.pieceCount (b.board s) - 1) := by
        intro he
        rw [he] at tb
        exact hppc (tb.symm.trans hblast)
      refine ⟨by rw [hpl]; exact t64, ?_, ?_⟩
      · rw [hpl, remove_board, Function.update_noteq htns, tb]
      · rw [hpl, remove_index, Function.update_noteq htnl, ti]

/-- A piece-bookkeeping mutation of a `Board2D`: `put_piece` or `remove_piece`. -/
inductive BoardOp where
  | put (pc s : Nat)
  | remove (s : Nat)

/-- The preconditions the specification attaches to the mutations: placement
only onto an empty square (with a real piece), removal only from an occupied
square. -/
def legalOp (b : Board2D) : BoardOp → Prop
  | .put pc s => validPiece pc ∧ s < 64 ∧ b.board s = 0
  | .remove s => s < 64 ∧ validPiece (b.board s)

instance (b : Board2D) (op : BoardOp) : Decidable (legalOp b op) := by
  cases op <;> dsimp [legalOp] <;> infer_instance

def applyOp (b : Board2D) : BoardOp → Board2D
  | .put pc s => b.put_piece pc s
  | .remove s => b.remove_piece s

def execOps (b : Board2D) : List BoardOp → Board2D
  | [] => b
  | op :: ops => execOps (applyOp b op) ops

/-- Every operation of the sequence satisfies its precondition in the state
it is executed in. -/
def legalOps (b : Board2D) : List BoardOp → Prop
  | [] => True
  | op :: ops => legalOp b op ∧ legalOps (applyOp b op) ops

instance instDecidableLegalOps : (b : Board2D) → (l : List BoardOp) → Decidable (legalOps b l)
  | _, [] => .isTrue trivial
  | b, op :: ops => by
    unfold legalOps
    have := instDecidableLegalOps (applyOp b op) ops
    infer_instance

theorem applyOp_inv (b : Board2D) (op : BoardOp) (hb : b.Inv) (hop : legalOp b op) :
    (applyOp b op).Inv := by
  cases op with
  | put pc s =>
    obtain ⟨h1, h2, h3⟩ := hop
    exact put_piece_inv b pc s hb h1 h2 h3
  | remove s =>
    obtain ⟨h1, h2⟩ := hop
    exact remove_piece_inv b s hb h1 h2

theorem execOps_inv : ∀ (ops : List BoardOp) (b : Board2D),
    b.Inv → legalOps b ops → (execOps b ops).Inv
  | [], _, hb, _ => hb
  | op :: ops, b, hb, hlegal =>
    execOps_inv ops (applyOp b op) (applyOp_inv b op hb hlegal.1) hlegal.2

theorem legalOps_append_left : ∀ (l₁ l₂ : List BoardOp) (b : Board2D),
    legalOps b (l₁ ++ l₂) → legalOps b l₁
  | [], _, _, _ => trivial
  | op :: l₁, l₂, b, h => ⟨h.1, legalOps_append_left l₁ l₂ (applyOp b op) h.2⟩

/-- C6: piece bookkeeping round-trip invariant.  For every sequence of
`put_piece` calls on empty squares and `remove_piece` calls on occupied
squares, at every point of the sequence (i.e. after any prefix `ops` of a
legal sequence `ops ++ rest`) and for every real piece `p`, the location
collection — the `pieceList p` entries at positions `0 ≤ i < pieceCount p` —
contains exactly the squares whose board content is `p`. -/
theorem pieceBookkeepingRoundTrip (b : Board2D) (ops rest : List BoardOp)
    (hb : b.Inv) (hlegal : legalOps b (ops ++ rest))
    (p : Nat) (hp : validPiece p) (s : Nat) (hs : s < 64) :
    (execOps b ops).board s = p ↔
      ∃ i : Int, 0 ≤ i ∧ i < (execOps b ops).pieceCount p ∧
        (execOps b ops).pieceList p i = s := by
  have hinv : (execOps b ops).Inv :=
    execOps_inv ops b hb (legalOps_append_left ops rest b hlegal)
  obtain ⟨_, hA, hB⟩ := hinv p hp
  constructor
  · intro h
    obtain ⟨h1, h2, h3⟩ := hA s hs h
    exact ⟨(execOps b ops).index s, h1, h2, h3⟩
  · rintro ⟨i, hi0, hilt, hieq⟩
    have := (hB i hi0 hilt).2.1
    rw [hieq] at this
    exact this

/-- Witness for C6: on the cleared board, the legal sequence
`put W_PAWN a1; remove a1` is exercised after its first step. -/
theorem pieceBookkeepingRoundTripWitness :
    Board2D.cleared.Inv ∧
    legalOps Board2D.cleared ([BoardOp.put 1 0] ++ [BoardOp.remove 0]) ∧
    ((execOps Board2D.cleared [BoardOp.put 1 0]).board 0 = 1 ↔
      ∃ i : Int, 0 ≤ i ∧ i < (execOps Board2D.cleared [BoardOp.put 1 0]).pieceCount 1 ∧
        (execOps Board2D.cleared [BoardOp.put 1 0]).pieceList 1 i = 0) :=
  ⟨cleared_Inv, by decide,
    pieceBookkeepingRoundTrip Board2D.cleared [BoardOp.put 1 0] [BoardOp.remove 0]
      cleared_Inv (by decide) 1 (by decide) 0 (by decide)⟩

/-- C8 (counterexample): `put_piece` onto an occupied square does not fail —
it completes and silently corrupts the bookkeeping.  After putting a white
pawn (1) on square 0 and then a white knight (2) on the same occupied square,
the resulting state is an ordinary board value whose square 0 holds the
knight while the pawn's location list still records square 0. -/
theorem placePieceOccupiedProceeds :
    ((Board2D.cleared.put_piece 1 0).put_piece 2 0).board 0 = 2 ∧
    ((Board2D.cleared.put_piece 1 0).put_piece 2 0).pieceCount 1 = 1 ∧
    ((Board2D.cleared.put_piece 1 0).put_piece 2 0).pieceList 1 0 = 0 ∧
    ((Board2D.cleared.put_piece 1 0).put_piece 2 0).board 0 ≠ 1 := by
  refine ⟨by decide, by decide, by decide, by decide⟩

/-- C8 (amended): none of the four operations checks its precondition.
`put_piece` onto an occupied square proceeds and leaves the displaced piece's
stale `pieceList` entry in place (the bookkeeping invariant's equivalence
fails in the successor state); `remove_piece` from an empty square proceeds,
decrementing the `NO_PIECE` counter twice (slot 0 is also the White aggregate
slot); `board_on_turn` on a negative ply index and `timeline` on an
out-of-range index have no defined result (modelled `none`; the source
documents "can lead to crashes").  Only the `assert` statements inside
`new_timeline`'s secondary activation fail fast. -/
theorem uncheckedPreconditions :
    (∀ (b : Board2D) (pc s : Nat), b.Inv → s < 64 → validPiece (b.board s) →
      b.board s ≠ pc →
      ((b.put_piece pc s).board s = pc ∧
        ∃ i : Int, 0 ≤ i ∧ i < (b.put_piece pc s).pieceCount (b.board s) ∧
          (b.put_piece pc s).pieceList (b.board s) i = s)) ∧
    (∀ (b : Board2D) (s : Nat), b.board s = 0 →
      (b.remove_piece s).pieceCount 0 = b.pieceCount 0 - 2) ∧
    (∀ (tl : Timeline) (t : Int) (c : Color), tl.plyToBoardIdx t c < 0 →
      tl.board_on_turn t c = none) ∧
    (∀ (p : Position) (l : Int), 0 ≤ l → (p.positiveLines.length : Int) ≤ l →
      p.timeline l = none) := by
  refine ⟨?_, ?_, ?_, ?_⟩
  · intro b pc s hb hs hvp hne
    obtain ⟨hc0, hA, hB⟩ := hb (b.board s) hvp
    obtain ⟨h1, h2, h3⟩ := hA s hs rfl
    have hcnt := put_pieceCount_valid b pc s (b.board s) hvp
    rw [if_neg hne] at hcnt
    refine ⟨by rw [put_board, Function.update_same], b.index s, h1, ?_, ?_⟩
    · rw [hcnt]
      exact h2
    · rw [put_pieceList, upd2_miss (Or.inl hne), h3]
  · intro b s hbs
    unfold Board2D.remove_piece
    dsimp only
    rw [hbs]
    have ha : allPieces 0 = 0 := rfl
    rw [ha, Function.update_same, Function.update_same]
    ring
  · intro tl t c hneg
    unfold Timeline.board_on_turn
    dsimp only
    rw [if_neg (by omega)]
  · intro p l h0 hlen
    unfold Position.timeline
    rw [if_pos h0]
    exact List.get?_eq_none.mpr (by omega)

/-- Witness for C8: the unchecked `put_piece` clause applied at the concrete
occupied square of `placePieceOccupiedProceeds`'s scenario, and the unchecked
lookups at concrete out-of-range coordinates. -/
theorem uncheckedPreconditionsWitness :
    (((Board2D.cleared.put_piece 1 0).put_piece 2 0).board 0 = 2 ∧
      ∃ i : Int, 0 ≤ i ∧
        i < ((Board2D.cleared.put_piece 1 0).put_piece 2 0).pieceCount
              ((Board2D.cleared.put_piece 1 0).board 0) ∧
        ((Board2D.cleared.put_piece 1 0).put_piece 2 0).pieceList
          ((Board2D.cleared.put_piece 1 0).board 0) i = 0) ∧
    demoTimeline.board_on_turn 0 Color.white = none := by
  constructor
  · have h := uncheckedPreconditions.1 (Board2D.cleared.put_piece 1 0) 2 0
      (put_piece_inv Board2D.cleared 1 0 cleared_Inv (by decide) (by decide) (by decide))
      (by decide) (by decide) (by decide)
    exact h
  · exact uncheckedPreconditions.2.2.1 demoTimeline 0 Color.white (by decide)

/-- The timeline object built at the top of `new_timeline` before the
activation case split: start coordinate `branchTime + (int)sideToMove`, start
color and single board taken from the `passTurn`-ed copy of the source
board. -/
def newTl (t : Int) (c : Color) (src : Board2D) : Timeline :=
  (Timeline.startAt (t + c.val) src.passTurn.sideToMove).append_board src.passTurn

/-- Case analysis of a successful `new_timeline` call: the source lookups
succeeded, the returned board is the `passTurn`-ed copy, and the resulting
position has one of the six shapes of the branch-activation case split
(primary activation, secondary activation, or inactive append, for each
mover color). -/
theorem new_timeline_shapes (p : Position) (l t : Int) (p' : Position) (b : Board2D)
    (h : p.new_timeline l t = some (p', b)) :
    ∃ tl src, p.timeline l = some tl ∧ tl.board_on_turn t p.sideToMove = some src ∧
      b = src.passTurn ∧
      ((p.sideToMove = Color.white ∧
        (p.positive_timeline_count = p.negative_timeline_count ∨
          p.positive_timeline_count = p.negative_timeline_count - 1) ∧
        p' = { p with
               positiveLines := p.positiveLines ++ [(newTl t p.sideToMove src).activate]
               activePositiveLines := p.activePositiveLines + 1
               timeOfPresent := min p.timeOfPresent (newTl t p.sideToMove src).startTime }) ∨
       (p.sideToMove = Color.white ∧
        p.positive_timeline_count < p.negative_timeline_count - 1 ∧
        ∃ bal, p.negativeLines.get? (p.positive_timeline_count + 1).toNat = some bal ∧
          bal.active = false ∧
          p' = { p with
                 positiveLines := p.positiveLines ++ [(newTl t p.sideToMove src).activate]
                 negativeLines :=
                   p.negativeLines.set (p.positive_timeline_count + 1).toNat bal.activate
                 activePositiveLines := p.activePositiveLines + 1
                 activeNegativeLines := p.activeNegativeLines + 1
                 timeOfPresent :=
                   min p.timeOfPresent
                     (min (newTl t p.sideToMove src).startTime bal.startTime) }) ∨
       (p.sideToMove = Color.white ∧
        ¬(p.positive_timeline_count = p.negative_timeline_count ∨
          p.positive_timeline_count = p.negative_timeline_count - 1) ∧
        ¬(p.positive_timeline_count < p.negative_timeline_count - 1) ∧
        p' = { p with positiveLines := p.positiveLines ++ [newTl t p.sideToMove src] }) ∨
       (p.sideToMove = Color.black ∧
        (p.negative_timeline_count = p.positive_timeline_count ∨
          p.negative_timeline_count = p.positive_timeline_count - 1) ∧
        p' = { p with
               negativeLines := p.negativeLines ++ [(newTl t p.sideToMove src).activate]
               activeNegativeLines := p.activeNegativeLines + 1
               timeOfPresent := min p.timeOfPresent (newTl t p.sideToMove src).startTime }) ∨
       (p.sideToMove = Color.black ∧
        p.negative_timeline_count < p.positive_timeline_count - 1 ∧
        ∃ bal, p.positiveLines.get? (p.negative_timeline_count + 2).toNat = some bal ∧
          bal.active = false ∧
          p' = { p with
                 negativeLines := p.negativeLines ++ [(newTl t p.sideToMove src).activate]
                 positiveLines :=
                   p.positiveLines.set (p.negative_timeline_count + 2).toNat bal.activate
                 activeNegativeLines := p.activeNegativeLines + 1
                 timeOfPresent :=
                   min p.timeOfPresent
                     (min (newTl t p.sideToMove src).startTime bal.startTime) }) ∨
       (p.sideToMove = Color.black ∧
        ¬(p.negative_timeline_count = p.positive_timeline_count ∨
          p.negative_timeline_count = p.positive_timeline_count - 1) ∧
        ¬(p.negative_timeline_count < p.positive_timeline_count - 1) ∧
        p' = { p with negativeLines := p.negativeLines ++ [newTl t p.sideToMove src] })) := by
  unfold Position.new_timeline at h
  split at h
  · exact absurd h (by simp)
  · rename_i targetLine htl
    split at h
    · exact absurd h (by simp)
    · rename_i src hsrc
      dsimp only at h
      split at h
      · rename_i hw
        split at h
        · rename_i hcond
          rw [Option.some.injEq, Prod.mk.injEq] at h
          exact ⟨targetLine, src, htl, hsrc, h.2.symm,
            Or.inl ⟨hw, hcond, h.1.symm⟩⟩
        · rename_i hcond1
          split at h
          · rename_i hcond2
            split at h
            · exact absurd h (by simp)
            · rename_i bal hbal
              split at h
              · exact absurd h (by simp)
              · rename_i hact
                rw [Option.some.injEq, Prod.mk.injEq] at h
                exact ⟨targetLine, src, htl, hsrc, h.2.symm,
                  Or.inr (Or.inl ⟨hw, hcond2, bal, hbal,
                    Bool.not_eq_true _ ▸ hact, h.1.symm⟩)⟩
          · rename_i hcond2
            rw [Option.some.injEq, Prod.mk.injEq] at h
            exact ⟨targetLine, src, htl, hsrc, h.2.symm,
              Or.inr (Or.inr (Or.inl ⟨hw, hcond1, hcond2, h.1.symm⟩))⟩
      · rename_i hw
        have hb : p.sideToMove = Color.black := by
          cases hc : p.sideToMove
          · exact absurd hc hw
          · rfl
        split at h
        · rename_i hcond
          rw [Option.some.injEq, Prod.mk.injEq] at h
          exact ⟨targetLine, src, htl, hsrc, h.2.symm,
            Or.inr (Or.inr (Or.inr (Or.inl ⟨hb, hcond, h.1.symm⟩)))⟩
        · rename_i hcond1
          split at h
          · rename_i hcond2
            split at h
            · exact absurd h (by simp)
            · rename_i bal hbal
              split at h
              · exact absurd h (by simp)
              · rename_i hact
                rw [Option.some.injEq, Prod.mk.injEq] at h
                exact ⟨targetLine, src, htl, hsrc, h.2.symm,
                  Or.inr (Or.inr (Or.inr (Or.inr (Or.inl ⟨hb, hcond2, bal, hbal,
                    Bool.not_eq_true _ ▸ hact, h.1.symm⟩))))⟩
          · rename_i hcond2
            rw [Option.some.injEq, Prod.mk.injEq] at h
            exact ⟨targetLine, src, htl, hsrc, h.2.symm,
              Or.inr (Or.inr (Or.inr (Or.inr (Or.inr ⟨hb, hcond1, hcond2, h.1.symm⟩))))⟩

theorem get?_append_preserve {L : List Timeline} {x tl tl' : Timeline} {n : Nat}
    (h1 : L.get? n = some tl) (h2 : (L ++ [x]).get? n = some tl') : tl' = tl := by
  rcases List.get?_eq_some.mp h1 with ⟨hlt, _⟩
  rw [List.get?_append hlt] at h2
  exact Option.some.inj (h2.symm.trans h1)

theorem get?_set_activate_preserve {L : List Timeline} {bal tl tl' : Timeline} {k n : Nat}
    (hbal : L.get? k = some bal) (h1 : L.get? n = some tl)
    (h2 : (L.set k bal.activate).get? n = some tl') (hact : tl.active = true) :
    tl'.active = true := by
  by_cases hk : k = n
  · subst hk
    rcases List.get?_eq_some.mp hbal with ⟨hklt, _⟩
    rw [List.get?_set_eq_of_lt _ hklt] at h2
    rw [← Option.some.inj h2]
    rfl
  · rw [List.get?_set_ne _ _ hk] at h2
    rw [Option.some.inj (h2.symm.trans h1)]
    exact hact

/-- C10: `timeOfPresent` never increases across a `new_timeline` call — every
branch of the activation case split either leaves it unchanged or replaces it
by a `min` with itself as one argument. -/
theorem timeOfPresentNonIncreasing (p : Position) (l t : Int) (p' : Position) (b : Board2D)
    (h : p.new_timeline l t = some (p', b)) :
    p'.timeOfPresent ≤ p.timeOfPresent := by
  obtain ⟨tl, src, _, _, _, hshape⟩ := new_timeline_shapes p l t p' b h
  rcases hshape with ⟨_, _, hp'⟩ | ⟨_, _, bal, _, _, hp'⟩ | ⟨_, _, _, hp'⟩ |
    ⟨_, _, hp'⟩ | ⟨_, _, bal, _, _, hp'⟩ | ⟨_, _, _, hp'⟩ <;> subst hp'
  · exact min_le_left _ _
  · exact min_le_left _ _
  · exact le_refl _
  · exact min_le_left _ _
  · exact min_le_left _ _
  · exact le_refl _

/-- The position produced by initializing with the single central board
`demoBoard` (the value of `Position.set [] [demoBoard]`). -/
def posInit : Position :=
  { negativeLines := []
    positiveLines := [mkInitTimeline demoBoard]
    activePositiveLines := 0
    activeNegativeLines := 0
    timeOfPresent := 1
    sideToMove := Color.white }

/-- Witness for C10: the first White branch call on the balanced start. -/
theorem timeOfPresentNonIncreasingWitness :
    ∃ pb : Position × Board2D, posInit.new_timeline 0 1 = some pb ∧
      pb.1.timeOfPresent ≤ posInit.timeOfPresent := by
  have hs : (posInit.new_timeline 0 1).isSome = true := rfl
  obtain ⟨⟨p', b⟩, hpb⟩ := Option.isSome_iff_exists.mp hs
  exact ⟨(p', b), hpb, timeOfPresentNonIncreasing posInit 0 1 p' b hpb⟩

/-- C4 (amended): when the mover's side has a strict numeric surplus of
timelines (`ownCount > oppCount`, the case reaching the final `else` of the
activation split), the new timeline is appended to the mover's side inactive,
and both active counters and `timeOfPresent` are unchanged. -/
theorem surplusStaysInactive (p : Position) (l t : Int) (p' : Position) (b : Board2D)
    (h : p.new_timeline l t = some (p', b))
    (hsur : (p.sideToMove = Color.white ∧
              p.positive_timeline_count > p.negative_timeline_count) ∨
            (p.sideToMove = Color.black ∧
              p.negative_timeline_count > p.positive_timeline_count)) :
    ∃ ntl, p'.moverSideLast p.sideToMove = some ntl ∧ ntl.active = false ∧
      p'.activePositiveLines = p.activePositiveLines ∧
      p'.activeNegativeLines = p.activeNegativeLines ∧
      p'.timeOfPresent = p.timeOfPresent := by
  obtain ⟨tl, src, _, _, _, hshape⟩ := new_timeline_shapes p l t p' b h
  rcases hshape with ⟨hw, hg, hp'⟩ | ⟨hw, hg, bal, _, _, hp'⟩ | ⟨hw, _, _, hp'⟩ |
    ⟨hw, hg, hp'⟩ | ⟨hw, hg, bal, _, _, hp'⟩ | ⟨hw, _, _, hp'⟩
  · rcases hsur with ⟨_, hgt⟩ | ⟨hbk, _⟩
    · omega
    · exact absurd (hw.symm.trans hbk) (by intro hc; exact Color.noConfusion hc)
  · rcases hsur with ⟨_, hgt⟩ | ⟨hbk, _⟩
    · omega
    · exact absurd (hw.symm.trans hbk) (by intro hc; exact Color.noConfusion hc)
  · subst hp'
    rw [hw]
    exact ⟨newTl t Color.white src, List.getLast?_concat _, rfl, rfl, rfl, rfl⟩
  · rcases hsur with ⟨hwh, _⟩ | ⟨_, hgt⟩
    · exact absurd (hw.symm.trans hwh) (by intro hc; exact Color.noConfusion hc)
    · omega
  · rcases hsur with ⟨hwh, _⟩ | ⟨_, hgt⟩
    · exact absurd (hw.symm.trans hwh) (by intro hc; exact Color.noConfusion hc)
    · omega
  · subst hp'
    rw [hw]
    exact ⟨newTl t Color.black src, List.getLast?_concat _, rfl, rfl, rfl, rfl⟩

/-- A position whose White side already has a strict surplus: the central
timeline plus one positive branch, no negative timelines. -/
def posSurplus : Position :=
  { negativeLines := []
    positiveLines := [mkInitTimeline demoBoard, mkInitTimeline demoBoard.passTurn]
    activePositiveLines := 1
    activeNegativeLines := 0
    timeOfPresent := 1
    sideToMove := Color.white }

/-- Witness for C4 (amended): a White branch call on `posSurplus`
(`ownCount = 1 > oppCount = 0`). -/
theorem surplusStaysInactiveWitness :
    ∃ p' b, posSurplus.new_timeline 0 1 = some (p', b) ∧
      ∃ ntl, p'.moverSideLast posSurplus.sideToMove = some ntl ∧ ntl.active = false ∧
        p'.activePositiveLines = posSurplus.activePositiveLines ∧
        p'.activeNegativeLines = posSurplus.activeNegativeLines ∧
        p'.timeOfPresent = posSurplus.timeOfPresent := by
  have hs : (posSurplus.new_timeline 0 1).isSome = true := rfl
  obtain ⟨⟨p', b⟩, hpb⟩ := Option.isSome_iff_exists.mp hs
  exact ⟨p', b, hpb,
    surplusStaysInactive posSurplus 0 1 p' b hpb (Or.inl ⟨rfl, by decide⟩)⟩

/-- C3: coordinates of a newly branched timeline.  For a successful
`new_timeline` call that resolved its source board `src` (whose side to move
is the mover, as in every well-formed timeline), the returned board is the
`passTurn`-ed copy of `src`, the timeline appended to the mover's side starts
at `atTime + 0` for a White mover and `atTime + 1` for a Black mover, its
single board is that copy, and its start color is the copy's (flipped) side
to move — the opponent of the mover. -/
theorem newTimelineCoordinates (p : Position) (l t : Int) (p' : Position) (b : Board2D)
    (tl : Timeline) (src : Board2D)
    (h : p.new_timeline l t = some (p', b))
    (htl : p.timeline l = some tl)
    (hsrc : tl.board_on_turn t p.sideToMove = some src)
    (hstm : src.sideToMove = p.sideToMove) :
    b = src.passTurn ∧ b.sideToMove = other_color p.sideToMove ∧
    ∃ ntl, p'.moverSideLast p.sideToMove = some ntl ∧
      ntl.startTime = t + (if p.sideToMove = Color.white then 0 else 1) ∧
      ntl.startColor = b.sideToMove ∧
      ntl.boards = [b] := by
  obtain ⟨tl0, src0, htl0, hsrc0, hb, hshape⟩ := new_timeline_shapes p l t p' b h
  have htleq : tl0 = tl := Option.some.inj (htl0.symm.trans htl)
  subst htleq
  have hsrceq : src0 = src := Option.some.inj (hsrc0.symm.trans hsrc)
  subst hsrceq
  refine ⟨hb, ?_, ?_⟩
  · rw [hb, ← hstm]
    rfl
  · rcases hshape with ⟨hw, _, hp'⟩ | ⟨hw, _, bal, _, _, hp'⟩ | ⟨hw, _, _, hp'⟩ |
      ⟨hw, _, hp'⟩ | ⟨hw, _, bal, _, _, hp'⟩ | ⟨hw, _, _, hp'⟩ <;> subst hp' <;> rw [hw, hb]
    · exact ⟨(newTl t Color.white src0).activate, List.getLast?_concat _, rfl, rfl, rfl⟩
    · exact ⟨(newTl t Color.white src0).activate, List.getLast?_concat _, rfl, rfl, rfl⟩
    · exact ⟨newTl t Color.white src0, List.getLast?_concat _, rfl, rfl, rfl⟩
    · exact ⟨(newTl t Color.black src0).activate, List.getLast?_concat _, rfl, rfl, rfl⟩
    · exact ⟨(newTl t Color.black src0).activate, List.getLast?_concat _, rfl, rfl, rfl⟩
    · exact ⟨newTl t Color.black src0, List.getLast?_concat _, rfl, rfl, rfl⟩

/-- Witness for C3: the first White branch call on the balanced start. -/
theorem newTimelineCoordinatesWitness :
    ∃ p' b, posInit.new_timeline 0 1 = some (p', b) ∧
      b = demoBoard.passTurn ∧ b.sideToMove = other_color posInit.sideToMove ∧
      ∃ ntl, p'.moverSideLast posInit.sideToMove = some ntl ∧
        ntl.startTime = 1 + (if posInit.sideToMove = Color.white then 0 else 1) ∧
        ntl.startColor = b.sideToMove ∧
        ntl.boards = [b] := by
  have hs : (posInit.new_timeline 0 1).isSome = true := rfl
  obtain ⟨⟨p', b⟩, hpb⟩ := Option.isSome_iff_exists.mp hs
  obtain ⟨h1, h2, h3⟩ := newTimelineCoordinates posInit 0 1 p' b
    (mkInitTimeline demoBoard) demoBoard hpb rfl rfl rfl
  exact ⟨p', b, hpb, h1, h2, h3⟩

/-- C9: once a timeline's active flag is true it never becomes false again.
`activate` sets the flag and is idempotent, `append_board` leaves it
untouched, and every successful `new_timeline` call maps each pre-existing
timeline index either to the unchanged timeline or to its activation — the
repository contains no deactivating operation. -/
theorem onceActiveAlwaysActive :
    (∀ tl : Timeline, tl.activate.active = true) ∧
    (∀ tl : Timeline, tl.activate.activate = tl.activate) ∧
    (∀ (tl : Timeline) (b : Board2D), (tl.append_board b).active = tl.active) ∧
    (∀ (p : Position) (l t : Int) (p' : Position) (b : Board2D) (i : Int)
       (tl tl' : Timeline),
      p.new_timeline l t = some (p', b) →
      p.timeline i = some tl → p'.timeline i = some tl' →
      tl.active = true → tl'.active = true) := by
  refine ⟨fun tl => rfl, fun tl => rfl, fun tl b => rfl, ?_⟩
  intro p l t p' b i tl tl' h htl htl' hact
  obtain ⟨tl0, src, _, _, _, hshape⟩ := new_timeline_shapes p l t p' b h
  unfold Position.timeline at htl htl'
  by_cases hi : 0 ≤ i
  · rw [if_pos hi] at htl htl'
    rcases hshape with ⟨_, _, hp'⟩ | ⟨_, _, bal, hbal, _, hp'⟩ | ⟨_, _, _, hp'⟩ |
      ⟨_, _, hp'⟩ | ⟨_, _, bal, hbal, _, hp'⟩ | ⟨_, _, _, hp'⟩ <;> subst hp'
    · rw [get?_append_preserve htl htl']
      exact hact
    · rw [get?_append_preserve htl htl']
      exact hact
    · rw [get?_append_preserve htl htl']
      exact hact
    · rw [Option.some.inj (htl'.symm.trans htl)]
      exact hact
    · exact get?_set_activate_preserve hbal htl htl' hact
    · rw [Option.some.inj (htl'.symm.trans htl)]
      exact hact
  · rw [if_neg hi] at htl htl'
    rcases hshape with ⟨_, _, hp'⟩ | ⟨_, _, bal, hbal, _, hp'⟩ | ⟨_, _, _, hp'⟩ |
      ⟨_, _, hp'⟩ | ⟨_, _, bal, hbal, _, hp'⟩ | ⟨_, _, _, hp'⟩ <;> subst hp'
    · rw [Option.some.inj (htl'.symm.trans htl)]
      exact hact
    · exact get?_set_activate_preserve hbal htl htl' hact
    · rw [Option.some.inj (htl'.symm.trans htl)]
      exact hact
    · rw [get?_append_preserve htl htl']
      exact hact
    · rw [get?_append_preserve htl htl']
      exact hact
    · rw [get?_append_preserve htl htl']
      exact hact

/-- The result position of the White branch call of
`onceActiveAlwaysActiveWitness` (an inactive surplus append). -/
def posSurplusAfter : Position :=
  { posSurplus with
    positiveLines := posSurplus.positiveLines ++ [newTl 1 Color.white demoBoard] }

/-- Witness for C9: all four clauses exercised at concrete inputs; the last
clause at the central timeline across a surplus-append call. -/
theorem onceActiveAlwaysActiveWitness :
    demoTimeline.activate.active = true ∧
    demoTimeline.activate.activate = demoTimeline.activate ∧
    (demoTimeline.append_board demoBoard).active = demoTimeline.active ∧
    (mkInitTimeline demoBoard).active = true := by
  refine ⟨onceActiveAlwaysActive.1 demoTimeline,
    onceActiveAlwaysActive.2.1 demoTimeline,
    onceActiveAlwaysActive.2.2.1 demoTimeline demoBoard, ?_⟩
  exact onceActiveAlwaysActive.2.2.2 posSurplus 0 1 posSurplusAfter demoBoard.passTurn 0
    (mkInitTimeline demoBoard) (mkInitTimeline demoBoard) rfl rfl rfl rfl

/-- C7: postconditions of initialization.  For a non-empty positive list,
`set` succeeds; every created timeline starts at time 1 with its input
board's side to move as start color, holds exactly that board, and is active;
the active counters are `count(positiveBoards) − 1` and
`count(negativeBoards)`; `timeOfPresent` is 1; and the position's side to
move is the central board's. -/
theorem initializationPostconditions (negBs posBs : List Board2D) (hne : posBs ≠ []) :
    ∃ q, Position.set negBs posBs = some q ∧
      (∀ tl ∈ q.negativeLines ++ q.positiveLines,
        tl.startTime = 1 ∧ tl.active = true ∧
        ∃ bd, tl.boards = [bd] ∧ tl.startColor = bd.sideToMove) ∧
      q.activePositiveLines = (posBs.length : Int) - 1 ∧
      q.activeNegativeLines = (negBs.length : Int) ∧
      q.timeOfPresent = 1 ∧
      (∃ b0, posBs.head? = some b0 ∧ q.sideToMove = b0.sideToMove) := by
  cases posBs with
  | nil => exact absurd rfl hne
  | cons b0 rest =>
    refine ⟨_, rfl, ?_, rfl, rfl, rfl, b0, rfl, rfl⟩
    intro tl htl
    rw [List.mem_append] at htl
    rcases htl with hmem | hmem <;> rw [List.mem_map] at hmem <;>
      obtain ⟨bd, _, hbd⟩ := hmem <;> rw [← hbd] <;>
      exact ⟨rfl, rfl, bd, rfl, rfl⟩

/-- Witness for C7: one negative and one positive starting board. -/
theorem initializationPostconditionsWitness :
    ∃ q, Position.set [demoBoard.passTurn] [demoBoard] = some q ∧
      (∀ tl ∈ q.negativeLines ++ q.positiveLines,
        tl.startTime = 1 ∧ tl.active = true ∧
        ∃ bd, tl.boards = [bd] ∧ tl.startColor = bd.sideToMove) ∧
      q.activePositiveLines = (([demoBoard] : List Board2D).length : Int) - 1 ∧
      q.activeNegativeLines = (([demoBoard.passTurn] : List Board2D).length : Int) ∧
      q.timeOfPresent = 1 ∧
      (∃ b0, ([demoBoard] : List Board2D).head? = some b0 ∧
        q.sideToMove = b0.sideToMove) :=
  initializationPostconditions [demoBoard.passTurn] [demoBoard] (List.cons_ne_nil _ _)
